import Mathlib

/-!
Shallow embedding of johnny-cache (src/johnny/cache.py): the KeyGen and
KeyHandler classes implementing generation-token cache invalidation.

Modelling conventions:
- The md5 hash object is modelled by an abstract digest function `md5hex`
  together with hashlib's buffering contract (updating a hash object with
  several strings is equivalent to one update with their concatenation),
  so a hash object's state is the concatenation of the strings fed to
  `update`, and `hexdigest` applies `md5hex` to that buffer.
- `KeyGen.random_generator` (the md5 hex digest of a fresh uuid4) is
  modelled by an oracle `tokens : Nat → String` applied to the number of
  `random_generator` calls made so far; properties such as freshness or
  distinctness of the random tokens become explicit hypotheses.
- The duck-typed `cache_backend` is a key/value store with `get` (returning
  the stored value or `none`, for Python's `get(key, None)`) and `set`
  (single-key overwrite).
- Stateful `KeyHandler` methods take and return an explicit state `HState`
  (the store contents plus the `random_generator` call counter).
-/

namespace JohnnyCache

/-- The external key/value cache backend, as a total map from keys to
optionally-present values. -/
structure Store where
  entries : String → Option String

/-- `cache_backend.get(key, None)`. -/
def Store.get (st : Store) (k : String) : Option String :=
  st.entries k

/-- `cache_backend.set(key, val)`: single-key overwrite. -/
def Store.set (st : Store) (k v : String) : Store :=
  ⟨fun q => if q = k then some v else st.entries q⟩

/-- A store with no entries. -/
def Store.empty : Store :=
  ⟨fun _ => none⟩

/-- `KeyGen`, with the md5 hex digest function abstracted as a parameter:
`md5hex s` stands for `md5(s).hexdigest()`. -/
structure KeyGen where
  md5hex : String → String

/-- `KeyGen.gen_table_key`: if the table name has more than 200 characters,
it is replaced by its first 200 characters followed by the hex digest of
the md5 hash of the remaining characters; the result is prefixed with
`jc_table_`. -/
def KeyGen.gen_table_key (kg : KeyGen) (table : String) : String :=
  if table.length > 200 then
    "jc_table_" ++
      (String.mk (table.data.take 200) ++ kg.md5hex (String.mk (table.data.drop 200)))
  else
    "jc_table_" ++ table

/-- `KeyGen.gen_multi_key`: a fresh md5 object is updated with `str(v)` for
each value in order, so by hashlib's buffering contract its final buffer is
the left fold of string append over the values; the hex digest is prefixed
with `jc_multi_`. -/
def KeyGen.gen_multi_key (kg : KeyGen) (values : List String) : String :=
  "jc_multi_" ++ kg.md5hex (values.foldl (fun acc v => acc ++ v) "")

/-- `KeyHandler`: the key generator plus the oracle modelling
`KeyGen.random_generator`. -/
structure KeyHandler where
  keygen : KeyGen
  tokens : Nat → String

/-- State threaded through `KeyHandler` calls: the cache backend contents
and the number of `random_generator` calls made so far. -/
structure HState where
  store : Store
  ctr : Nat

/-- `KeyHandler.get_single_generation`: look up the table key; on a miss,
draw a fresh random value, store it under the key and return it; on a hit,
return the stored value unchanged. -/
def KeyHandler.get_single_generation (kh : KeyHandler) (σ : HState) (table : String) :
    String × HState :=
  let key := kh.keygen.gen_table_key table
  match σ.store.get key with
  | some val => (val, σ)
  | none => (kh.tokens σ.ctr, ⟨σ.store.set key (kh.tokens σ.ctr), σ.ctr + 1⟩)

/-- The loop `for table in tables: generations += self.get_single_generation(table)`
of `get_multi_generation`. Since `generations` is a Python list and the
generation value a string, `+=` extends the list with the string's
characters, so the accumulator has type `List Char`. -/
def KeyHandler.getGenerations (kh : KeyHandler) (σ : HState) :
    List String → List Char × HState
  | [] => ([], σ)
  | t :: ts =>
    let r := kh.get_single_generation σ t
    let rest := kh.getGenerations r.2 ts
    (r.1.data ++ rest.1, rest.2)

/-- `KeyHandler.get_multi_generation`: collect the single generations of all
tables (as a character list, see `getGenerations`), derive the multi key
from them (each character is a one-character string when fed to
`gen_multi_key`), then look it up with the same miss/hit logic as
`get_single_generation`. -/
def KeyHandler.get_multi_generation (kh : KeyHandler) (σ : HState) (tables : List String) :
    String × HState :=
  let r := kh.getGenerations σ tables
  let key := kh.keygen.gen_multi_key (r.1.map fun c => String.mk [c])
  match r.2.store.get key with
  | some val => (val, r.2)
  | none => (kh.tokens r.2.ctr, ⟨r.2.store.set key (kh.tokens r.2.ctr), r.2.ctr + 1⟩)

/-- `KeyHandler.invalidate_table`: unconditionally draw a fresh random
value, store it under the table key and return it. -/
def KeyHandler.invalidate_table (kh : KeyHandler) (σ : HState) (table : String) :
    String × HState :=
  let key := kh.keygen.gen_table_key table
  (kh.tokens σ.ctr, ⟨σ.store.set key (kh.tokens σ.ctr), σ.ctr + 1⟩)

/-- `KeyHandler.get_generation`: the source reads
`return self.get_multi_generation(self, tables)` and
`return self.get_single_generation(self, tables[0])`. Both delegate calls
pass the handler itself as an extra positional argument to a bound method,
so Python raises `TypeError` before either delegate body runs; an empty
argument tuple first fails the `tables[0]` indexing. -/
def KeyHandler.get_generation (kh : KeyHandler) (σ : HState) (tables : List String) :
    Except String (String × HState) :=
  if tables.length > 1 then
    Except.error "TypeError: get_multi_generation() takes exactly 2 arguments (3 given)"
  else
    match tables with
    | [] => Except.error "IndexError: tuple index out of range"
    | _ :: _ =>
      Except.error "TypeError: get_single_generation() takes exactly 2 arguments (3 given)"

/-- Spec-side restatement of the key-derivation rule, written from the C8
sentence: the fixed tag `jc_table_` followed by `s` itself when `s` has at
most 200 characters, and otherwise followed by the first 200 characters of
`s` concatenated with the hex digest of the hash of the remaining
characters. -/
def gen_table_key_spec (kg : KeyGen) (s : String) : String :=
  if s.length ≤ 200 then
    "jc_table_" ++ s
  else
    "jc_table_" ++
      (String.mk (s.data.take 200) ++ kg.md5hex (String.mk (s.data.drop 200)))

/- ## General string helpers -/

theorem string_data_append (s t : String) : (s ++ t).data = s.data ++ t.data :=
  rfl

theorem string_append_left_cancel {p a b : String} (h : p ++ a = p ++ b) : a = b := by
  apply String.ext
  exact List.append_cancel_left (congrArg String.data h)

theorem string_length_append (s t : String) : (s ++ t).length = s.length + t.length := by
  show (s ++ t).data.length = s.data.length + t.data.length
  rw [string_data_append, List.length_append]

/-- Strings starting with the tag `jc_table_` never coincide with strings
starting with the tag `jc_multi_`. -/
theorem table_tag_ne_multi_tag (a b : String) : "jc_table_" ++ a ≠ "jc_multi_" ++ b := by
  intro h
  have hd : "jc_table_".data ++ a.data = "jc_multi_".data ++ b.data := by
    have := congrArg String.data h
    rwa [string_data_append, string_data_append] at this
  have hlen : "jc_table_".data.length = "jc_multi_".data.length := by decide
  have : "jc_table_".data = "jc_multi_".data := List.append_inj_left hd hlen
  exact absurd this (by decide)

/-- Folding string append over singleton-character strings rebuilds the
character list as one string. -/
theorem foldl_append_map_singleton (l : List Char) (a : String) :
    List.foldl (fun acc v => acc ++ v) a (l.map fun c => String.mk [c]) =
      a ++ String.mk l := by
  induction l generalizing a with
  | nil =>
    apply String.ext
    simp [string_data_append]
  | cons c l ih =>
    simp only [List.map_cons, List.foldl_cons]
    rw [ih]
    apply String.ext
    simp [string_data_append]

/-- The multi key of a character list viewed as one-character strings is the
tag `jc_multi_` followed by the digest of the string of those characters. -/
theorem gen_multi_key_map_singleton (kg : KeyGen) (l : List Char) :
    kg.gen_multi_key (l.map fun c => String.mk [c]) =
      "jc_multi_" ++ kg.md5hex (String.mk l) := by
  unfold KeyGen.gen_multi_key
  rw [foldl_append_map_singleton]
  have : ("" : String) ++ String.mk l = String.mk l := by
    apply String.ext
    simp [string_data_append]
  rw [this]

/- ## Store and state helper lemmas -/

theorem store_get_set_eq (st : Store) (k v : String) : (st.set k v).get k = some v := by
  simp [Store.set, Store.get]

theorem store_get_set_ne (st : Store) {k q : String} (v : String) (h : q ≠ k) :
    (st.set k v).get q = st.get q := by
  simp [Store.set, Store.get, if_neg h]

theorem store_empty_get (k : String) : Store.empty.get k = none :=
  rfl

/-- A table key of a short name is the tag followed by the name. -/
theorem gen_table_key_short (kg : KeyGen) (s : String) (h : ¬ s.length > 200) :
    kg.gen_table_key s = "jc_table_" ++ s := by
  unfold KeyGen.gen_table_key
  rw [if_neg h]

theorem single_hit (kh : KeyHandler) (σ : HState) (t : String) {v : String}
    (h : σ.store.get (kh.keygen.gen_table_key t) = some v) :
    kh.get_single_generation σ t = (v, σ) := by
  unfold KeyHandler.get_single_generation
  simp only [h]

theorem single_miss (kh : KeyHandler) (σ : HState) (t : String)
    (h : σ.store.get (kh.keygen.gen_table_key t) = none) :
    kh.get_single_generation σ t =
      (kh.tokens σ.ctr,
        ⟨σ.store.set (kh.keygen.gen_table_key t) (kh.tokens σ.ctr), σ.ctr + 1⟩) := by
  unfold KeyHandler.get_single_generation
  simp only [h]

/-- `get_single_generation` only ever writes a key that was absent, so every
present entry survives it. -/
theorem single_pres (kh : KeyHandler) {σ : HState} {t : String} {v : String} {σ1 : HState}
    (hs : kh.get_single_generation σ t = (v, σ1)) {k w : String}
    (h : σ.store.get k = some w) : σ1.store.get k = some w := by
  cases hg : σ.store.get (kh.keygen.gen_table_key t) with
  | some val =>
    rw [single_hit kh σ t hg] at hs
    cases hs
    exact h
  | none =>
    rw [single_miss kh σ t hg] at hs
    cases hs
    by_cases hk : k = kh.keygen.gen_table_key t
    · rw [hk, hg] at h
      cases h
    · show (σ.store.set (kh.keygen.gen_table_key t) (kh.tokens σ.ctr)).get k = some w
      rw [store_get_set_ne _ _ hk]
      exact h

/-- After `get_single_generation` returns `v`, the table key holds `v`. -/
theorem single_post (kh : KeyHandler) {σ : HState} {t : String} {v : String} {σ1 : HState}
    (hs : kh.get_single_generation σ t = (v, σ1)) :
    σ1.store.get (kh.keygen.gen_table_key t) = some v := by
  cases hg : σ.store.get (kh.keygen.gen_table_key t) with
  | some val =>
    rw [single_hit kh σ t hg] at hs
    cases hs
    exact hg
  | none =>
    rw [single_miss kh σ t hg] at hs
    cases hs
    exact store_get_set_eq _ _ _

theorem getGen_nil (kh : KeyHandler) (σ : HState) : kh.getGenerations σ [] = ([], σ) :=
  rfl

theorem getGen_cons (kh : KeyHandler) {σ σ1 σ2 : HState} {t : String} {ts : List String}
    {v : String} {g : List Char} (hv : kh.get_single_generation σ t = (v, σ1))
    (hr : kh.getGenerations σ1 ts = (g, σ2)) :
    kh.getGenerations σ (t :: ts) = (v.data ++ g, σ2) := by
  unfold KeyHandler.getGenerations
  simp only [hv, hr]

/-- The generation-collecting loop only ever writes keys that were absent,
so every present entry survives it. -/
theorem getGen_pres (kh : KeyHandler) (ts : List String) :
    ∀ {σ : HState} {g : List Char} {σ1 : HState},
      kh.getGenerations σ ts = (g, σ1) →
      ∀ {k w : String}, σ.store.get k = some w → σ1.store.get k = some w := by
  induction ts with
  | nil =>
    intro σ g σ1 hg k w h
    rw [getGen_nil] at hg
    cases hg
    exact h
  | cons t ts ih =>
    intro σ g σ1 hg k w h
    rcases hs : kh.get_single_generation σ t with ⟨v, σa⟩
    rcases hr : kh.getGenerations σa ts with ⟨rest, σb⟩
    rw [getGen_cons kh hs hr, Prod.mk.injEq] at hg
    obtain ⟨hgl, hgr⟩ := hg
    subst hgl
    subst hgr
    exact ih hr (single_pres kh hs h)

/-- Replaying the generation-collecting loop from any state that still holds
all entries of the loop's final state returns the same generations and
leaves that state unchanged. -/
theorem getGen_stable (kh : KeyHandler) (ts : List String) :
    ∀ {σ : HState} {g : List Char} {σ1 : HState} (τ : HState),
      kh.getGenerations σ ts = (g, σ1) →
      (∀ k w, σ1.store.get k = some w → τ.store.get k = some w) →
      kh.getGenerations τ ts = (g, τ) := by
  induction ts with
  | nil =>
    intro σ g σ1 τ hg hpres
    rw [getGen_nil] at hg
    cases hg
    exact getGen_nil kh τ
  | cons t ts ih =>
    intro σ g σ1 τ hg hpres
    rcases hs : kh.get_single_generation σ t with ⟨v, σa⟩
    rcases hr : kh.getGenerations σa ts with ⟨rest, σb⟩
    rw [getGen_cons kh hs hr, Prod.mk.injEq] at hg
    obtain ⟨hgl, hgr⟩ := hg
    subst hgl
    subst hgr
    have hb : σb.store.get (kh.keygen.gen_table_key t) = some v :=
      getGen_pres kh ts hr (single_post kh hs)
    have hτ : τ.store.get (kh.keygen.gen_table_key t) = some v := hpres _ _ hb
    exact getGen_cons kh (single_hit kh τ t hτ) (ih τ hr hpres)

theorem multi_hit (kh : KeyHandler) {σ σ1 : HState} {tables : List String} {g : List Char}
    {K v : String} (hg : kh.getGenerations σ tables = (g, σ1))
    (hkey : kh.keygen.gen_multi_key (g.map fun c => String.mk [c]) = K)
    (h : σ1.store.get K = some v) :
    kh.get_multi_generation σ tables = (v, σ1) := by
  unfold KeyHandler.get_multi_generation
  simp only [hg, hkey, h]

theorem multi_miss (kh : KeyHandler) {σ σ1 : HState} {tables : List String} {g : List Char}
    {K : String} (hg : kh.getGenerations σ tables = (g, σ1))
    (hkey : kh.keygen.gen_multi_key (g.map fun c => String.mk [c]) = K)
    (h : σ1.store.get K = none) :
    kh.get_multi_generation σ tables =
      (kh.tokens σ1.ctr, ⟨σ1.store.set K (kh.tokens σ1.ctr), σ1.ctr + 1⟩) := by
  unfold KeyHandler.get_multi_generation
  simp only [hg, hkey, h]

theorem invalidate_eq (kh : KeyHandler) (σ : HState) (t : String) :
    kh.invalidate_table σ t =
      (kh.tokens σ.ctr,
        ⟨σ.store.set (kh.keygen.gen_table_key t) (kh.tokens σ.ctr), σ.ctr + 1⟩) :=
  rfl

/- ## Claim theorems on pure key derivation -/

/-- Claim C7: for every table identifier with more than 200 characters, the
derived table key has at most 242 characters (md5 hex digests always have
32 characters, which is the hypothesis on the abstract digest). -/
theorem gen_table_key_length_bound (kg : KeyGen) (s : String)
    (hmd5 : ∀ x, (kg.md5hex x).length = 32) (hs : s.length > 200) :
    (kg.gen_table_key s).length ≤ 242 := by
  unfold KeyGen.gen_table_key
  rw [if_pos hs, string_length_append, string_length_append, hmd5]
  have htake : (String.mk (s.data.take 200)).length = 200 := by
    show (s.data.take 200).length = 200
    rw [List.length_take]
    exact Nat.min_eq_left (Nat.le_of_lt hs)
  rw [htake]
  decide

/-- A concrete digest function of constant output length 32, for the C7
witness. -/
def constHash32 : KeyGen :=
  ⟨fun _ => String.mk (List.replicate 32 'h')⟩

theorem gen_table_key_length_bound_witness :
    (∀ x, (constHash32.md5hex x).length = 32) ∧
      (String.mk (List.replicate 201 'a')).length > 200 ∧
      (constHash32.gen_table_key (String.mk (List.replicate 201 'a'))).length ≤ 242 := by
  have h1 : ∀ x, (constHash32.md5hex x).length = 32 := by
    intro x
    show (List.replicate 32 'h').length = 32
    rw [List.length_replicate]
  have h2 : (String.mk (List.replicate 201 'a')).length > 200 := by
    show (List.replicate 201 'a').length > 200
    rw [List.length_replicate]
    omega
  exact ⟨h1, h2, gen_table_key_length_bound constHash32 _ h1 h2⟩

/-- Claim C8: `gen_table_key` agrees with the spec's description — the tag
`jc_table_` followed by `s` itself when `s` has at most 200 characters, and
by the first 200 characters of `s` concatenated with the digest of the
remaining characters otherwise. -/
theorem gen_table_key_matches_spec (kg : KeyGen) (s : String) :
    kg.gen_table_key s = gen_table_key_spec kg s := by
  unfold KeyGen.gen_table_key gen_table_key_spec
  by_cases h : s.length ≤ 200
  · rw [if_neg (by omega), if_pos h]
  · rw [if_pos (by omega), if_neg h]

/-- Claim C9: a table key never equals a multi key, whatever the table
identifier and the list of generation values: the two carry the distinct
tags `jc_table_` and `jc_multi_`. -/
theorem table_key_ne_multi_key (kg : KeyGen) (s : String) (v : List String) :
    kg.gen_table_key s ≠ kg.gen_multi_key v := by
  unfold KeyGen.gen_table_key KeyGen.gen_multi_key
  by_cases h : s.length > 200
  · rw [if_pos h]
    exact table_tag_ne_multi_tag _ _
  · rw [if_neg h]
    exact table_tag_ne_multi_tag _ _

/-- Claim C10: `gen_multi_key` depends only on the concatenation of the
generation values, not on the boundaries between list elements: value lists
with equal concatenation map to the same combined key. -/
theorem gen_multi_key_concat_only (kg : KeyGen) (v1 v2 : List String)
    (h : String.join v1 = String.join v2) :
    kg.gen_multi_key v1 = kg.gen_multi_key v2 := by
  unfold KeyGen.gen_multi_key
  have h1 : v1.foldl (fun acc v => acc ++ v) "" = v2.foldl (fun acc v => acc ++ v) "" := h
  rw [h1]

theorem gen_multi_key_concat_only_witness :
    (["ab", "c"] : List String) ≠ ["a", "bc"] ∧
      String.join ["ab", "c"] = String.join ["a", "bc"] ∧
      (KeyGen.mk id).gen_multi_key ["ab", "c"] = (KeyGen.mk id).gen_multi_key ["a", "bc"] :=
  ⟨by decide, by decide, gen_multi_key_concat_only (KeyGen.mk id) _ _ (by decide)⟩

theorem multi_ne_table (x s : String) : ("jc_multi_" ++ x) ≠ "jc_table_" ++ s :=
  fun h => table_tag_ne_multi_tag s x h.symm

/-- Claim C1: on every nonempty argument tuple, `get_generation` raises an
exception instead of delegating, because both delegate calls pass the
handler itself as an extra positional argument to a bound method. -/
theorem get_generation_always_errors (kh : KeyHandler) (σ : HState) (t : String)
    (ts : List String) :
    ∃ msg, kh.get_generation σ (t :: ts) = Except.error msg := by
  cases ts with
  | nil => exact ⟨_, rfl⟩
  | cons t2 ts =>
    refine ⟨"TypeError: get_multi_generation() takes exactly 2 arguments (3 given)", ?_⟩
    unfold KeyHandler.get_generation
    rw [if_pos (by simp only [List.length_cons]; omega)]

/- ## Concrete instances for witnesses -/

theorem string_length_mk (l : List Char) : (String.mk l).length = l.length :=
  rfl

/-- A concrete token oracle whose values are pairwise distinct: the n-th
token is n repetitions of the letter x. -/
def replTokens : Nat → String :=
  fun n => String.mk (List.replicate n 'x')

theorem replTokens_distinct : ∀ i j : Nat, i ≠ j → replTokens i ≠ replTokens j := by
  intro i j hij h
  apply hij
  have h2 := congrArg String.length h
  simp only [replTokens, string_length_mk, List.length_replicate] at h2
  exact h2

/-- A concrete injective-enough digest function for witnesses: pad with the
letter p and keep 32 characters. -/
def padHash : KeyGen :=
  ⟨fun s => String.mk ((s.data ++ List.replicate 32 'p').take 32)⟩

/-- A concrete key handler for witnesses. -/
def testHandler : KeyHandler :=
  ⟨padHash, replTokens⟩

/- ## Claim theorems on the stateful operations -/

/-- Claim C4: starting from an empty store, `get_single_generation` returns
a value and stores it under the table key, and a second call returns the
same value with a completely unchanged state (no store write, no random
draw). -/
theorem get_single_lazy_creation (kh : KeyHandler) (s : String) :
    ((kh.get_single_generation ⟨Store.empty, 0⟩ s).2).store.get
        (kh.keygen.gen_table_key s) =
      some (kh.get_single_generation ⟨Store.empty, 0⟩ s).1 ∧
    kh.get_single_generation (kh.get_single_generation ⟨Store.empty, 0⟩ s).2 s =
      kh.get_single_generation ⟨Store.empty, 0⟩ s := by
  have hmiss : (⟨Store.empty, 0⟩ : HState).store.get (kh.keygen.gen_table_key s) = none :=
    rfl
  have h1 := single_miss kh ⟨Store.empty, 0⟩ s hmiss
  refine ⟨?_, ?_⟩
  · simp only [h1]
    exact store_get_set_eq _ _ _
  · simp only [h1]
    exact single_hit kh _ s (store_get_set_eq _ _ _)

/-- Claim C3: for any starting state, reading a source, invalidating it and
reading again gives v2 = v3 always; and v1 differs from v2 when the random
tokens are pairwise distinct and differ from whatever the store already
held under the table key. -/
theorem invalidate_then_get_single (kh : KeyHandler) (σ0 : HState) (s : String)
    (hinj : ∀ i j : Nat, i ≠ j → kh.tokens i ≠ kh.tokens j)
    (hfresh : ∀ w, σ0.store.get (kh.keygen.gen_table_key s) = some w →
      ∀ n, kh.tokens n ≠ w) :
    (kh.invalidate_table (kh.get_single_generation σ0 s).2 s).1 =
      (kh.get_single_generation
        (kh.invalidate_table (kh.get_single_generation σ0 s).2 s).2 s).1 ∧
    (kh.get_single_generation σ0 s).1 ≠
      (kh.invalidate_table (kh.get_single_generation σ0 s).2 s).1 := by
  cases hg : σ0.store.get (kh.keygen.gen_table_key s) with
  | some w =>
    have h1 := single_hit kh σ0 s hg
    refine ⟨?_, ?_⟩
    · simp only [h1, invalidate_eq]
      rw [single_hit kh _ s (store_get_set_eq _ _ _)]
    · simp only [h1, invalidate_eq]
      exact fun h => hfresh w hg σ0.ctr h.symm
  | none =>
    have h1 := single_miss kh σ0 s hg
    refine ⟨?_, ?_⟩
    · simp only [h1, invalidate_eq]
      rw [single_hit kh _ s (store_get_set_eq _ _ _)]
    · simp only [h1, invalidate_eq]
      exact hinj σ0.ctr (σ0.ctr + 1) (by omega)

theorem invalidate_then_get_single_witness :
    (testHandler.invalidate_table
        (testHandler.get_single_generation ⟨Store.empty, 0⟩ "users").2 "users").1 =
      (testHandler.get_single_generation
        (testHandler.invalidate_table
          (testHandler.get_single_generation ⟨Store.empty, 0⟩ "users").2 "users").2
        "users").1 ∧
    (testHandler.get_single_generation ⟨Store.empty, 0⟩ "users").1 ≠
      (testHandler.invalidate_table
        (testHandler.get_single_generation ⟨Store.empty, 0⟩ "users").2 "users").1 :=
  invalidate_then_get_single testHandler ⟨Store.empty, 0⟩ "users" replTokens_distinct
    (fun w hw => by cases hw)

/-- Claim C5: two consecutive `get_multi_generation` calls on the same table
list, from any starting state and with nothing in between, return equal
values. -/
theorem multi_generation_stability (kh : KeyHandler) (σ0 : HState) (tables : List String) :
    (kh.get_multi_generation ((kh.get_multi_generation σ0 tables).2) tables).1 =
      (kh.get_multi_generation σ0 tables).1 := by
  rcases hg : kh.getGenerations σ0 tables with ⟨g, σa⟩
  cases hK : σa.store.get (kh.keygen.gen_multi_key (g.map fun c => String.mk [c])) with
  | some w =>
    have h1 := multi_hit kh hg rfl hK
    have hg2 : kh.getGenerations σa tables = (g, σa) :=
      getGen_stable kh tables σa hg (fun k w h => h)
    have h2 := multi_hit kh hg2 rfl hK
    rw [h1, h2]
  | none =>
    have h1 := multi_miss kh hg rfl hK
    have hpres : ∀ k w,
        σa.store.get k = some w →
        (HState.mk
          (σa.store.set (kh.keygen.gen_multi_key (g.map fun c => String.mk [c]))
            (kh.tokens σa.ctr)) (σa.ctr + 1)).store.get k = some w := by
      intro k w h
      have hkK : k ≠ kh.keygen.gen_multi_key (g.map fun c => String.mk [c]) := by
        intro he
        rw [he, hK] at h
        cases h
      show (σa.store.set _ _).get k = some w
      rw [store_get_set_ne _ _ hkK]
      exact h
    have hg2 := getGen_stable kh tables _ hg hpres
    have h2 := multi_hit kh hg2 rfl (store_get_set_eq _ _ _)
    rw [h1, h2]

/-- Claim C6: for distinct short table names t and u, invalidating t leaves
the entry under u's table key unchanged, a subsequent single-generation
read of u returns the value it returned before, and the invalidation
writes exactly the one key of t (every other key is untouched, t's key
holds the returned fresh value). -/
theorem invalidate_isolation (kh : KeyHandler) (σ0 : HState) (t u : String)
    (htu : t ≠ u) (ht : t.length ≤ 200) (hu : u.length ≤ 200) :
    ((kh.invalidate_table (kh.get_single_generation σ0 u).2 t).2).store.get
        (kh.keygen.gen_table_key u) =
      ((kh.get_single_generation σ0 u).2).store.get (kh.keygen.gen_table_key u) ∧
    (kh.get_single_generation
        (kh.invalidate_table (kh.get_single_generation σ0 u).2 t).2 u).1 =
      (kh.get_single_generation σ0 u).1 ∧
    (∀ k, k ≠ kh.keygen.gen_table_key t →
      ((kh.invalidate_table (kh.get_single_generation σ0 u).2 t).2).store.get k =
        ((kh.get_single_generation σ0 u).2).store.get k) ∧
    ((kh.invalidate_table (kh.get_single_generation σ0 u).2 t).2).store.get
        (kh.keygen.gen_table_key t) =
      some (kh.invalidate_table (kh.get_single_generation σ0 u).2 t).1 := by
  have hkey : kh.keygen.gen_table_key t ≠ kh.keygen.gen_table_key u := by
    rw [gen_table_key_short kh.keygen t (by omega), gen_table_key_short kh.keygen u (by omega)]
    intro h
    exact htu (string_append_left_cancel h)
  rcases hs : kh.get_single_generation σ0 u with ⟨v1, σ1⟩
  have hpost := single_post kh hs
  refine ⟨?_, ?_, ?_, ?_⟩
  · simp only [invalidate_eq]
    exact store_get_set_ne _ _ (Ne.symm hkey)
  · simp only [invalidate_eq]
    have hu2 : (HState.mk (σ1.store.set (kh.keygen.gen_table_key t) (kh.tokens σ1.ctr))
        (σ1.ctr + 1)).store.get (kh.keygen.gen_table_key u) = some v1 := by
      show (σ1.store.set _ _).get _ = some v1
      rw [store_get_set_ne _ _ (Ne.symm hkey)]
      exact hpost
    rw [single_hit kh _ u hu2]
  · intro k hk
    simp only [invalidate_eq]
    exact store_get_set_ne _ _ hk
  · simp only [invalidate_eq]
    exact store_get_set_eq _ _ _

theorem invalidate_isolation_witness :
    ((testHandler.invalidate_table
        (testHandler.get_single_generation ⟨Store.empty, 0⟩ "users").2 "orders").2).store.get
        (testHandler.keygen.gen_table_key "users") =
      ((testHandler.get_single_generation ⟨Store.empty, 0⟩ "users").2).store.get
        (testHandler.keygen.gen_table_key "users") ∧
    (testHandler.get_single_generation
        (testHandler.invalidate_table
          (testHandler.get_single_generation ⟨Store.empty, 0⟩ "users").2 "orders").2
        "users").1 =
      (testHandler.get_single_generation ⟨Store.empty, 0⟩ "users").1 ∧
    (∀ k, k ≠ testHandler.keygen.gen_table_key "orders" →
      ((testHandler.invalidate_table
          (testHandler.get_single_generation ⟨Store.empty, 0⟩ "users").2 "orders").2).store.get
          k =
        ((testHandler.get_single_generation ⟨Store.empty, 0⟩ "users").2).store.get k) ∧
    ((testHandler.invalidate_table
        (testHandler.get_single_generation ⟨Store.empty, 0⟩ "users").2 "orders").2).store.get
        (testHandler.keygen.gen_table_key "orders") =
      some (testHandler.invalidate_table
        (testHandler.get_single_generation ⟨Store.empty, 0⟩ "users").2 "orders").1 :=
  invalidate_isolation testHandler ⟨Store.empty, 0⟩ "orders" "users" (by decide) (by decide)
    (by decide)

/-- Claim C2: from an empty store, the combined generation of the table
list users, orders changes after orders is invalidated — granted that the
random tokens drawn along the way are pairwise distinct and that the
digest does not collide on the two combined buffers involved. -/
theorem multi_generation_sensitivity (kh : KeyHandler)
    (hinj : ∀ i j : Nat, i ≠ j → kh.tokens i ≠ kh.tokens j)
    (hhash : kh.keygen.md5hex (kh.tokens 0 ++ kh.tokens 1) ≠
      kh.keygen.md5hex (kh.tokens 0 ++ kh.tokens 3)) :
    (kh.get_multi_generation ⟨Store.empty, 0⟩ ["users", "orders"]).1 ≠
      (kh.get_multi_generation
        (kh.invalidate_table
          (kh.get_multi_generation ⟨Store.empty, 0⟩ ["users", "orders"]).2 "orders").2
        ["users", "orders"]).1 := by
  have hku : kh.keygen.gen_table_key "users" = "jc_table_" ++ "users" :=
    gen_table_key_short _ _ (by decide)
  have hko : kh.keygen.gen_table_key "orders" = "jc_table_" ++ "orders" :=
    gen_table_key_short _ _ (by decide)
  have huo : ("jc_table_" ++ "orders" : String) ≠ "jc_table_" ++ "users" := by decide
  -- first multi read, from the empty store: draws tokens 0, 1 and 2
  have h1 : kh.get_single_generation ⟨Store.empty, 0⟩ "users" =
      (kh.tokens 0, ⟨Store.empty.set ("jc_table_" ++ "users") (kh.tokens 0), 1⟩) := by
    have h := single_miss kh ⟨Store.empty, 0⟩ "users" (by rw [hku]; rfl)
    rw [hku] at h
    exact h
  have h2 : kh.get_single_generation
      ⟨Store.empty.set ("jc_table_" ++ "users") (kh.tokens 0), 1⟩ "orders" =
      (kh.tokens 1,
        ⟨(Store.empty.set ("jc_table_" ++ "users") (kh.tokens 0)).set
          ("jc_table_" ++ "orders") (kh.tokens 1), 2⟩) := by
    have hcond : (⟨Store.empty.set ("jc_table_" ++ "users") (kh.tokens 0), 1⟩ :
        HState).store.get (kh.keygen.gen_table_key "orders") = none := by
      rw [hko]
      show (Store.empty.set ("jc_table_" ++ "users") (kh.tokens 0)).get
        ("jc_table_" ++ "orders") = none
      rw [store_get_set_ne _ _ huo]
      exact store_empty_get _
    have h := single_miss kh _ "orders" hcond
    rw [hko] at h
    exact h
  have hG1 : kh.getGenerations ⟨Store.empty, 0⟩ ["users", "orders"] =
      ((kh.tokens 0).data ++ ((kh.tokens 1).data ++ []),
        ⟨(Store.empty.set ("jc_table_" ++ "users") (kh.tokens 0)).set
          ("jc_table_" ++ "orders") (kh.tokens 1), 2⟩) :=
    getGen_cons kh h1 (getGen_cons kh h2 (getGen_nil kh _))
  have hmk1 : kh.keygen.gen_multi_key
      (((kh.tokens 0).data ++ ((kh.tokens 1).data ++ [])).map fun c => String.mk [c]) =
      "jc_multi_" ++ kh.keygen.md5hex (kh.tokens 0 ++ kh.tokens 1) := by
    rw [gen_multi_key_map_singleton]
    have hjoin : String.mk ((kh.tokens 0).data ++ ((kh.tokens 1).data ++ [])) =
        kh.tokens 0 ++ kh.tokens 1 := by
      apply String.ext
      simp [string_data_append]
    rw [hjoin]
  have hm1 : (⟨(Store.empty.set ("jc_table_" ++ "users") (kh.tokens 0)).set
      ("jc_table_" ++ "orders") (kh.tokens 1), 2⟩ : HState).store.get
      ("jc_multi_" ++ kh.keygen.md5hex (kh.tokens 0 ++ kh.tokens 1)) = none := by
    show ((Store.empty.set ("jc_table_" ++ "users") (kh.tokens 0)).set
      ("jc_table_" ++ "orders") (kh.tokens 1)).get
      ("jc_multi_" ++ kh.keygen.md5hex (kh.tokens 0 ++ kh.tokens 1)) = none
    rw [store_get_set_ne _ _ (multi_ne_table _ _), store_get_set_ne _ _ (multi_ne_table _ _)]
    exact store_empty_get _
  have hM1 : kh.get_multi_generation ⟨Store.empty, 0⟩ ["users", "orders"] =
      (kh.tokens 2,
        ⟨((Store.empty.set ("jc_table_" ++ "users") (kh.tokens 0)).set
            ("jc_table_" ++ "orders") (kh.tokens 1)).set
          ("jc_multi_" ++ kh.keygen.md5hex (kh.tokens 0 ++ kh.tokens 1)) (kh.tokens 2),
          3⟩) :=
    multi_miss kh hG1 hmk1 hm1
  -- invalidation of orders: draws token 3
  have hI : kh.invalidate_table
      ⟨((Store.empty.set ("jc_table_" ++ "users") (kh.tokens 0)).set
          ("jc_table_" ++ "orders") (kh.tokens 1)).set
        ("jc_multi_" ++ kh.keygen.md5hex (kh.tokens 0 ++ kh.tokens 1)) (kh.tokens 2), 3⟩
      "orders" =
      (kh.tokens 3,
        ⟨(((Store.empty.set ("jc_table_" ++ "users") (kh.tokens 0)).set
            ("jc_table_" ++ "orders") (kh.tokens 1)).set
          ("jc_multi_" ++ kh.keygen.md5hex (kh.tokens 0 ++ kh.tokens 1)) (kh.tokens 2)).set
          ("jc_table_" ++ "orders") (kh.tokens 3), 4⟩) := by
    have h := invalidate_eq kh
      ⟨((Store.empty.set ("jc_table_" ++ "users") (kh.tokens 0)).set
          ("jc_table_" ++ "orders") (kh.tokens 1)).set
        ("jc_multi_" ++ kh.keygen.md5hex (kh.tokens 0 ++ kh.tokens 1)) (kh.tokens 2), 3⟩
      "orders"
    rw [hko] at h
    exact h
  -- second multi read: users and orders hit the store, the combined key misses
  have h3 : kh.get_single_generation
      ⟨(((Store.empty.set ("jc_table_" ++ "users") (kh.tokens 0)).set
          ("jc_table_" ++ "orders") (kh.tokens 1)).set
        ("jc_multi_" ++ kh.keygen.md5hex (kh.tokens 0 ++ kh.tokens 1)) (kh.tokens 2)).set
        ("jc_table_" ++ "orders") (kh.tokens 3), 4⟩ "users" =
      (kh.tokens 0,
        ⟨(((Store.empty.set ("jc_table_" ++ "users") (kh.tokens 0)).set
            ("jc_table_" ++ "orders") (kh.tokens 1)).set
          ("jc_multi_" ++ kh.keygen.md5hex (kh.tokens 0 ++ kh.tokens 1)) (kh.tokens 2)).set
          ("jc_table_" ++ "orders") (kh.tokens 3), 4⟩) := by
    apply single_hit
    rw [hku]
    show ((((Store.empty.set ("jc_table_" ++ "users") (kh.tokens 0)).set
        ("jc_table_" ++ "orders") (kh.tokens 1)).set
      ("jc_multi_" ++ kh.keygen.md5hex (kh.tokens 0 ++ kh.tokens 1)) (kh.tokens 2)).set
      ("jc_table_" ++ "orders") (kh.tokens 3)).get ("jc_table_" ++ "users") =
      some (kh.tokens 0)
    rw [store_get_set_ne _ _ (Ne.symm huo), store_get_set_ne _ _ (table_tag_ne_multi_tag _ _),
      store_get_set_ne _ _ (Ne.symm huo)]
    exact store_get_set_eq _ _ _
  have h4 : kh.get_single_generation
      ⟨(((Store.empty.set ("jc_table_" ++ "users") (kh.tokens 0)).set
          ("jc_table_" ++ "orders") (kh.tokens 1)).set
        ("jc_multi_" ++ kh.keygen.md5hex (kh.tokens 0 ++ kh.tokens 1)) (kh.tokens 2)).set
        ("jc_table_" ++ "orders") (kh.tokens 3), 4⟩ "orders" =
      (kh.tokens 3,
        ⟨(((Store.empty.set ("jc_table_" ++ "users") (kh.tokens 0)).set
            ("jc_table_" ++ "orders") (kh.tokens 1)).set
          ("jc_multi_" ++ kh.keygen.md5hex (kh.tokens 0 ++ kh.tokens 1)) (kh.tokens 2)).set
          ("jc_table_" ++ "orders") (kh.tokens 3), 4⟩) := by
    apply single_hit
    rw [hko]
    exact store_get_set_eq _ _ _
  have hG2 : kh.getGenerations
      ⟨(((Store.empty.set ("jc_table_" ++ "users") (kh.tokens 0)).set
          ("jc_table_" ++ "orders") (kh.tokens 1)).set
        ("jc_multi_" ++ kh.keygen.md5hex (kh.tokens 0 ++ kh.tokens 1)) (kh.tokens 2)).set
        ("jc_table_" ++ "orders") (kh.tokens 3), 4⟩ ["users", "orders"] =
      ((kh.tokens 0).data ++ ((kh.tokens 3).data ++ []),
        ⟨(((Store.empty.set ("jc_table_" ++ "users") (kh.tokens 0)).set
            ("jc_table_" ++ "orders") (kh.tokens 1)).set
          ("jc_multi_" ++ kh.keygen.md5hex (kh.tokens 0 ++ kh.tokens 1)) (kh.tokens 2)).set
          ("jc_table_" ++ "orders") (kh.tokens 3), 4⟩) :=
    getGen_cons kh h3 (getGen_cons kh h4 (getGen_nil kh _))
  have hmk2 : kh.keygen.gen_multi_key
      (((kh.tokens 0).data ++ ((kh.tokens 3).data ++ [])).map fun c => String.mk [c]) =
      "jc_multi_" ++ kh.keygen.md5hex (kh.tokens 0 ++ kh.tokens 3) := by
    rw [gen_multi_key_map_singleton]
    have hjoin : String.mk ((kh.tokens 0).data ++ ((kh.tokens 3).data ++ [])) =
        kh.tokens 0 ++ kh.tokens 3 := by
      apply String.ext
      simp [string_data_append]
    rw [hjoin]
  have hK2K1 : ("jc_multi_" ++ kh.keygen.md5hex (kh.tokens 0 ++ kh.tokens 3)) ≠
      "jc_multi_" ++ kh.keygen.md5hex (kh.tokens 0 ++ kh.tokens 1) :=
    fun h => hhash (string_append_left_cancel h).symm
  have hm2 : (⟨(((Store.empty.set ("jc_table_" ++ "users") (kh.tokens 0)).set
      ("jc_table_" ++ "orders") (kh.tokens 1)).set
      ("jc_multi_" ++ kh.keygen.md5hex (kh.tokens 0 ++ kh.tokens 1)) (kh.tokens 2)).set
      ("jc_table_" ++ "orders") (kh.tokens 3), 4⟩ : HState).store.get
      ("jc_multi_" ++ kh.keygen.md5hex (kh.tokens 0 ++ kh.tokens 3)) = none := by
    show ((((Store.empty.set ("jc_table_" ++ "users") (kh.tokens 0)).set
        ("jc_table_" ++ "orders") (kh.tokens 1)).set
      ("jc_multi_" ++ kh.keygen.md5hex (kh.tokens 0 ++ kh.tokens 1)) (kh.tokens 2)).set
      ("jc_table_" ++ "orders") (kh.tokens 3)).get
      ("jc_multi_" ++ kh.keygen.md5hex (kh.tokens 0 ++ kh.tokens 3)) = none
    rw [store_get_set_ne _ _ (multi_ne_table _ _), store_get_set_ne _ _ hK2K1,
      store_get_set_ne _ _ (multi_ne_table _ _), store_get_set_ne _ _ (multi_ne_table _ _)]
    exact store_empty_get _
  have hM2 : kh.get_multi_generation
      ⟨(((Store.empty.set ("jc_table_" ++ "users") (kh.tokens 0)).set
          ("jc_table_" ++ "orders") (kh.tokens 1)).set
        ("jc_multi_" ++ kh.keygen.md5hex (kh.tokens 0 ++ kh.tokens 1)) (kh.tokens 2)).set
        ("jc_table_" ++ "orders") (kh.tokens 3), 4⟩ ["users", "orders"] =
      (kh.tokens 4,
        ⟨((((Store.empty.set ("jc_table_" ++ "users") (kh.tokens 0)).set
            ("jc_table_" ++ "orders") (kh.tokens 1)).set
          ("jc_multi_" ++ kh.keygen.md5hex (kh.tokens 0 ++ kh.tokens 1)) (kh.tokens 2)).set
          ("jc_table_" ++ "orders") (kh.tokens 3)).set
          ("jc_multi_" ++ kh.keygen.md5hex (kh.tokens 0 ++ kh.tokens 3)) (kh.tokens 4),
          5⟩) :=
    multi_miss kh hG2 hmk2 hm2
  simp only [hM1, hI, hM2]
  exact hinj 2 4 (by omega)

theorem multi_generation_sensitivity_witness :
    (testHandler.get_multi_generation ⟨Store.empty, 0⟩ ["users", "orders"]).1 ≠
      (testHandler.get_multi_generation
        (testHandler.invalidate_table
          (testHandler.get_multi_generation ⟨Store.empty, 0⟩ ["users", "orders"]).2
          "orders").2
        ["users", "orders"]).1 :=
  multi_generation_sensitivity testHandler replTokens_distinct (by decide)

end JohnnyCache
